import Mathlib

/-!
Verification of the Tuya Zigbee driver suite core logic.

Shallow embedding of:
- `src/lib/TuyaSpecificClusterDevice.js` (`_sendTuyaDatapoint` retry loop,
  write-method encoders, `sendBulkCommands`, `sendTimeResponse`)
- `src/drivers/novadigital_switch_4_gang/device.js` (`_onCapabilityOnOff`
  debounce, `getDataValue`, `convertMultiByteNumberPayloadToSingleDecimalNumber`)
- `AvailabilityManager.js` (watchdog tick, `_markAlive`, `_getSiblings`,
  `_markAllAvailable` / `_markAllUnavailable`)

Machine integers follow JavaScript semantics where they matter: the bitwise
operators `<<` and `|` operate on 32-bit two's-complement values, modelled on
`Int` via an unsigned 32-bit representative.
-/

/-! ### Command dispatcher: `_sendTuyaDatapoint` retry loop

The transmit (`ep.clusters.tuya.datapoint({...})`, including the device-ready
check inside the same `try` block) is abstracted by an oracle mapping the
0-based attempt index to `none` (the attempt resolves) or `some e` (the attempt
throws error `e`).  The loop is
`for (attempt = 0; attempt <= maxRetries; attempt++)`: on success it returns,
on failure it records the error and, when `attempt < maxRetries`, sleeps
`baseDelay * 2 ^ attempt` before the next attempt; after the loop it rethrows
the last error.
-/

/-- Result of a dispatched write: resolves, or throws the recorded error. -/
inductive SendResult where
  | success : SendResult
  | failure (err : Nat) : SendResult
deriving DecidableEq

/-- Observable trace of one `_sendTuyaDatapoint` call: the outcome, the list of
backoff delays awaited (in order), and the number of transmit attempts made. -/
structure SendTrace where
  result : SendResult
  delays : List Nat
  attempts : Nat
deriving DecidableEq

/-- The retry loop from `attempt` on, with `fuel` loop iterations remaining
(`fuel = maxRetries + 1 - attempt`).  `fuel = 1` is the last iteration
(`attempt = maxRetries`): a failure there exits the loop and rethrows.
The `fuel = 0` case is unreachable from `sendTuyaDatapoint`. -/
def sendGo (oracle : Nat → Option Nat) (baseDelay : Nat) : Nat → Nat → SendTrace
  | _, 0 => ⟨SendResult.failure 0, [], 0⟩
  | attempt, 1 =>
    match oracle attempt with
    | none => ⟨SendResult.success, [], attempt + 1⟩
    | some e => ⟨SendResult.failure e, [], attempt + 1⟩
  | attempt, n + 2 =>
    match oracle attempt with
    | none => ⟨SendResult.success, [], attempt + 1⟩
    | some _ =>
      let t := sendGo oracle baseDelay (attempt + 1) (n + 1)
      ⟨t.result, baseDelay * 2 ^ attempt :: t.delays, t.attempts⟩

/-- `_sendTuyaDatapoint(dp, datatype, data, maxRetries, baseDelay)`:
attempts `0 .. maxRetries` with exponential backoff between attempts. -/
def sendTuyaDatapoint (oracle : Nat → Option Nat) (maxRetries baseDelay : Nat) :
    SendTrace :=
  sendGo oracle baseDelay 0 (maxRetries + 1)

lemma sendGo_attempts_le (oracle : Nat → Option Nat) (baseDelay : Nat) :
    ∀ fuel attempt, (sendGo oracle baseDelay attempt fuel).attempts ≤ attempt + fuel := by
  intro fuel
  induction fuel using Nat.strong_induction_on with
  | _ fuel ih =>
    intro attempt
    match fuel with
    | 0 => simp [sendGo]
    | 1 =>
      cases h : oracle attempt <;> simp [sendGo, h]
    | n + 2 =>
      cases h : oracle attempt with
      | none => simp [sendGo, h]
      | some e =>
        have := ih (n + 1) (by omega) (attempt + 1)
        simp only [sendGo, h]
        omega

lemma delay_cons_range (baseDelay attempt k : Nat) :
    (List.range (k + 1)).map (fun j => baseDelay * 2 ^ (attempt + j)) =
      baseDelay * 2 ^ attempt ::
        (List.range k).map (fun j => baseDelay * 2 ^ (attempt + 1 + j)) := by
  rw [List.range_succ_eq_map, List.map_cons, List.map_map]
  refine List.cons_eq_cons.mpr ⟨by simp, ?_⟩
  apply List.map_congr_left
  intro j _
  show baseDelay * 2 ^ (attempt + (j + 1)) = baseDelay * 2 ^ (attempt + 1 + j)
  have h : attempt + (j + 1) = attempt + 1 + j := by omega
  rw [h]

/-- If attempts `attempt, …, attempt+k-1` all throw and attempt `attempt+k`
resolves (with `k` strictly inside the remaining fuel), the trace is success
after `attempt+k+1` total attempts, having waited
`baseDelay * 2 ^ (attempt + j)` after each failed attempt `attempt + j`. -/
lemma sendGo_first_success (oracle : Nat → Option Nat) (baseDelay : Nat) :
    ∀ k attempt fuel, k < fuel →
      (∀ j, j < k → oracle (attempt + j) ≠ none) →
      oracle (attempt + k) = none →
      sendGo oracle baseDelay attempt fuel =
        ⟨SendResult.success,
         (List.range k).map (fun j => baseDelay * 2 ^ (attempt + j)),
         attempt + k + 1⟩ := by
  intro k
  induction k with
  | zero =>
    intro attempt fuel hk _ hsucc
    have hs : oracle attempt = none := hsucc
    match fuel with
    | 1 => simp [sendGo, hs]
    | n + 2 => simp [sendGo, hs]
  | succ k ih =>
    intro attempt fuel hk hfail hsucc
    match fuel with
    | n + 2 =>
      have h0 : oracle attempt ≠ none := by
        have := hfail 0 (Nat.succ_pos k)
        simpa using this
      obtain ⟨e, he⟩ : ∃ e, oracle attempt = some e := by
        cases h : oracle attempt with
        | none => exact absurd h h0
        | some e => exact ⟨e, rfl⟩
      have hrec := ih (attempt + 1) (n + 1) (by omega)
        (fun j hj => by
          have := hfail (j + 1) (by omega)
          simpa [Nat.add_assoc, Nat.add_comm 1 j] using this)
        (by rw [show attempt + 1 + k = attempt + (k + 1) by omega]; exact hsucc)
      simp only [sendGo, he, hrec]
      rw [delay_cons_range]
      congr 1
      omega

/-- If every attempt in the remaining fuel throws, the trace is the failure of
the last attempt, after `attempt + fuel` total attempts, having waited after
every attempt but the last. -/
lemma sendGo_all_fail (oracle : Nat → Option Nat) (baseDelay : Nat) :
    ∀ fuel attempt e, 1 ≤ fuel →
      (∀ j, j < fuel → oracle (attempt + j) ≠ none) →
      oracle (attempt + fuel - 1) = some e →
      sendGo oracle baseDelay attempt fuel =
        ⟨SendResult.failure e,
         (List.range (fuel - 1)).map (fun j => baseDelay * 2 ^ (attempt + j)),
         attempt + fuel⟩ := by
  intro fuel
  induction fuel with
  | zero => intro _ _ h; omega
  | succ m ih =>
    intro attempt e _ hfail hlast
    match m, ih with
    | 0, _ =>
      have hl : oracle attempt = some e := hlast
      simp [sendGo, hl]
    | m' + 1, ih =>
      obtain ⟨e0, he0⟩ : ∃ e0, oracle attempt = some e0 := by
        cases h : oracle attempt with
        | none =>
          exact absurd (show oracle (attempt + 0) = none by simpa using h)
            (hfail 0 (by omega))
        | some e0 => exact ⟨e0, rfl⟩
      have hrec := ih (attempt + 1) e (by omega)
        (fun j hj => by
          have := hfail (j + 1) (by omega)
          simpa [Nat.add_assoc, Nat.add_comm 1 j] using this)
        (by rw [show attempt + 1 + (m' + 1) - 1 = attempt + (m' + 1 + 1) - 1 by omega]
            exact hlast)
      simp only [sendGo, he0, hrec]
      rw [show m' + 1 + 1 - 1 = m' + 1 by omega, show m' + 1 - 1 = m' by omega,
        delay_cons_range]
      congr 1
      omega

/-- C1: for every outbound DP write, the transmit is attempted at most
`maxRetries + 1` times; the write resolves on the first non-throwing attempt
`k` after waiting `baseDelay * 2 ^ j` following each failed attempt `j < k`
(no wait before attempt 0); if all `maxRetries + 1` attempts throw, it throws
the last attempt's error. -/
theorem C1_retry_backoff (oracle : Nat → Option Nat) (maxRetries baseDelay : Nat) :
    (sendTuyaDatapoint oracle maxRetries baseDelay).attempts ≤ maxRetries + 1
    ∧ (∀ k, k ≤ maxRetries → (∀ j, j < k → oracle j ≠ none) → oracle k = none →
        sendTuyaDatapoint oracle maxRetries baseDelay =
          ⟨SendResult.success, (List.range k).map (fun j => baseDelay * 2 ^ j), k + 1⟩)
    ∧ (∀ e, (∀ j, j ≤ maxRetries → oracle j ≠ none) → oracle maxRetries = some e →
        sendTuyaDatapoint oracle maxRetries baseDelay =
          ⟨SendResult.failure e,
           (List.range maxRetries).map (fun j => baseDelay * 2 ^ j),
           maxRetries + 1⟩) := by
  refine ⟨?_, ?_, ?_⟩
  · have h := sendGo_attempts_le oracle baseDelay (maxRetries + 1) 0
    simpa [sendTuyaDatapoint] using h
  · intro k hk hfail hsucc
    have h := sendGo_first_success oracle baseDelay k 0 (maxRetries + 1) (by omega)
      (fun j hj => by simpa using hfail j hj) (by simpa using hsucc)
    simpa [sendTuyaDatapoint] using h
  · intro e hfail hlast
    have h := sendGo_all_fail oracle baseDelay (maxRetries + 1) 0 e (by omega)
      (fun j hj => by simpa using hfail j (by omega)) (by simpa using hlast)
    simpa [sendTuyaDatapoint] using h

/-- Transmit oracle that throws on attempts 0 and 1 and resolves on attempt 2. -/
def oracleFailTwice : Nat → Option Nat := fun k => if k < 2 then some (k + 1) else none

/-- Transmit oracle that throws on every attempt. -/
def oracleAlwaysFail : Nat → Option Nat := fun k => some (k + 1)

/-- C1 witness: with `maxRetries = 2, baseDelay = 300`, a write failing twice
then succeeding waits 300 ms then 600 ms and succeeds in 3 attempts; a write
failing all 3 attempts waits 300 ms then 600 ms and throws the last error. -/
theorem C1_retry_backoff_witness :
    sendTuyaDatapoint oracleFailTwice 2 300 = ⟨SendResult.success, [300, 600], 3⟩
    ∧ sendTuyaDatapoint oracleAlwaysFail 2 300 = ⟨SendResult.failure 3, [300, 600], 3⟩ := by
  constructor
  · have h := (C1_retry_backoff oracleFailTwice 2 300).2.1 2 (by decide)
      (fun j hj => by simp [oracleFailTwice]; omega) (by decide)
    exact h.trans (by decide)
  · have h := (C1_retry_backoff oracleAlwaysFail 2 300).2.2 3
      (fun j _ => by simp [oracleAlwaysFail]) (by decide)
    exact h.trans (by decide)

/-! ### Command debouncing: `_onCapabilityOnOff` (novadigital_switch_4_gang)

`_onCapabilityOnOff(value)` first compares against the current capability
value (anti-flicker), then checks `this._commandPending` and returns without
doing anything when a command is already in flight ("command already pending,
skipping"); only otherwise does it set the pending flag and call
`writeBool(dp, value, RETRY_CONFIG.COMMANDS.retries, RETRY_CONFIG.COMMANDS.delay)`.
There is no cancellation: `_sendTuyaDatapoint` takes no abort signal.
-/

/-- Retry profile from `RETRY_CONFIG` in the 4-gang driver. -/
structure RetryConfig where
  retries : Nat
  delay : Nat
deriving DecidableEq

/-- `RETRY_CONFIG.COMMANDS = { retries: 5, delay: 300 }`. -/
def RETRY_CONFIG_COMMANDS : RetryConfig := ⟨5, 300⟩

/-- `RETRY_CONFIG.SETTINGS = { retries: 3, delay: 400 }`. -/
def RETRY_CONFIG_SETTINGS : RetryConfig := ⟨3, 400⟩

/-- What a call to `_onCapabilityOnOff` does. -/
inductive SubmitOutcome where
  | antiFlicker
  | skippedPending
  | executed (maxRetries baseDelay : Nat)
deriving DecidableEq

/-- `_onCapabilityOnOff(value)` given the current capability value and the
`_commandPending` flag. -/
def onCapabilityOnOff (current : Option Bool) (commandPending : Bool)
    (value : Bool) : SubmitOutcome :=
  if current = some value then SubmitOutcome.antiFlicker
  else if commandPending then SubmitOutcome.skippedPending
  else SubmitOutcome.executed RETRY_CONFIG_COMMANDS.retries RETRY_CONFIG_COMMANDS.delay

/-- C2 counterexample: submitting command B (`value = true`, current state
`off`) while command A is in flight (`_commandPending = true`) does not begin
executing B; B is skipped and A is left untouched, contradicting the claim
that A is aborted and B begins immediately. -/
theorem C2_abort_counterexample :
    onCapabilityOnOff (some false) true true = SubmitOutcome.skippedPending
    ∧ onCapabilityOnOff (some false) true true ≠ SubmitOutcome.executed 5 300 := by
  decide

/-- C2 amended: while a command is in flight, a newly submitted command for the
same target is skipped without transmission (debounce); the in-flight command
is not aborted (the write path has no cancellation) and continues its own
retry schedule.  A command submitted with nothing pending executes with the
`RETRY_CONFIG.COMMANDS` profile (5 retries, 300 ms base delay). -/
theorem C2_pending_skips_new_command (current : Option Bool) (value : Bool) :
    (current ≠ some value →
      onCapabilityOnOff current true value = SubmitOutcome.skippedPending)
    ∧ (current ≠ some value →
      onCapabilityOnOff current false value = SubmitOutcome.executed 5 300)
    ∧ (current = some value →
      ∀ p, onCapabilityOnOff current p value = SubmitOutcome.antiFlicker) := by
  refine ⟨fun h => ?_, fun h => ?_, fun h p => ?_⟩ <;>
    simp [onCapabilityOnOff, h, RETRY_CONFIG_COMMANDS]

/-- C2 amended witness: concrete instance with current state `off`,
submitting `on`. -/
theorem C2_pending_skips_new_command_witness :
    onCapabilityOnOff (some false) true true = SubmitOutcome.skippedPending
    ∧ onCapabilityOnOff (some false) false true = SubmitOutcome.executed 5 300 :=
  ⟨(C2_pending_skips_new_command (some false) true).1 (by decide),
   (C2_pending_skips_new_command (some false) true).2.1 (by decide)⟩

/-! ### DP codec: `getDataValue` / `convertMultiByteNumberPayloadToSingleDecimalNumber`

From `TuyaHelpers` (concatenated into `novadigital_switch_4_gang/device.js`).
The accumulation `(acc << 8) | byte` uses JavaScript bitwise operators, which
convert their operands to 32-bit two's-complement integers.  We model a JS
number that results from bitwise ops as an `Int` and the operators through the
unsigned 32-bit representative of their operands.
-/

/-- Unsigned 32-bit representative of a JS number under `ToInt32`/`ToUint32`
conversion (`n` modulo `2^32`, as a natural). -/
def toUInt32Rep (n : Int) : Nat := (n % 4294967296).toNat

/-- Signed reading of an unsigned 32-bit pattern (two's complement). -/
def ofUInt32Rep (u : Nat) : Int :=
  if u < 2147483648 then (u : Int) else (u : Int) - 4294967296

/-- JS `a << 8` on a 32-bit value. -/
def jsShl8 (a : Int) : Int := ofUInt32Rep (toUInt32Rep a * 256 % 4294967296)

/-- JS `a | b` on 32-bit values. -/
def jsOr (a b : Int) : Int := ofUInt32Rep (Nat.lor (toUInt32Rep a) (toUInt32Rep b))

/-- `chunks.reduce((acc, byte) => (acc << 8) | byte, 0)` (empty/missing input
yields 0, which `List.foldl` over `[]` already gives). -/
def convertMultiByteNumberPayloadToSingleDecimalNumber (chunks : List Nat) : Int :=
  chunks.foldl (fun acc (byte : Nat) => jsOr (jsShl8 acc) (byte : Int)) 0

/-- The spec's "big-endian accumulation over all bytes", read over unbounded
naturals: `acc = acc * 256 + byte` for each byte in order. -/
def bigEndianAccum (data : List Nat) : Nat :=
  data.foldl (fun acc byte => acc * 256 + byte) 0

/-- A decoded JS value: the possible result shapes of `getDataValue`. -/
inductive JSValue where
  | undef
  | jsbool (b : Bool)
  | num (n : Int)
  | str (codes : List Nat)
  | buf (bytes : List Nat)
deriving DecidableEq

/-- Outcome of a decode: a value, or a thrown error. -/
inductive Decoded where
  | ok (v : JSValue)
  | thrown (msg : String)
deriving DecidableEq

/-- Outcome of an encode: a byte buffer, or a thrown error. -/
inductive Encoded where
  | ok (bytes : List Nat)
  | thrown (msg : String)
deriving DecidableEq

/-- `getDataValue(dpValue)` for `dpValue = { datatype, data }`.  Note JS
`data[0] === 1` on empty data is `undefined === 1`, i.e. `false`, and
`data[0]` for `enum` on empty data is `undefined`. -/
def getDataValue (datatype : Nat) (data : List Nat) : Decoded :=
  match datatype with
  | 0 => Decoded.ok (JSValue.buf data)
  | 1 => Decoded.ok (JSValue.jsbool (data.head? == some 1))
  | 2 => Decoded.ok
      (JSValue.num (convertMultiByteNumberPayloadToSingleDecimalNumber data))
  | 3 => Decoded.ok (JSValue.str data)
  | 4 =>
    match data.head? with
    | some b => Decoded.ok (JSValue.num b)
    | none => Decoded.ok JSValue.undef
  | 5 => Decoded.ok
      (JSValue.num (convertMultiByteNumberPayloadToSingleDecimalNumber data))
  | _ => Decoded.thrown "Unsupported datatype"

/-- `buf.writeUInt32BE(value)`: the four big-endian bytes of a uint32. -/
def be32 (v : Nat) : List Nat :=
  [v / 16777216 % 256, v / 65536 % 256, v / 256 % 256, v % 256]

/-- `writeBool`: `Buffer.from([value ? 1 : 0])`. -/
def writeBoolBytes (value : Bool) : List Nat := [if value then 1 else 0]

/-- `writeData32`: validates `Number.isInteger(value) && 0 <= value <= 0xFFFFFFFF`,
then writes 4 bytes big-endian. -/
def writeData32Bytes (value : Int) : Encoded :=
  if 0 ≤ value ∧ value ≤ 4294967295 then Encoded.ok (be32 value.toNat)
  else Encoded.thrown "writeData32: invalid uint32"

/-- `writeEnum`: validates `0 <= value <= 255`, then writes one byte. -/
def writeEnumBytes (value : Int) : Encoded :=
  if 0 ≤ value ∧ value ≤ 255 then Encoded.ok [value.toNat]
  else Encoded.thrown "writeEnum: invalid enum"

/-- `writeString`: `Buffer.from(String(value), 'latin1')` keeps the low byte of
each UTF-16 code unit. -/
def writeStringBytes (codes : List Nat) : List Nat := codes.map (fun c => c % 256)

/-- The buffer construction performed by the write method corresponding to each
datatype (`raw↦writeRaw`, `bool↦writeBool`, `value/bitmap↦writeData32`,
`string↦writeString`, `enum↦writeEnum`), applied to a decoded value.  A value
of the wrong shape fails the method's validation and throws (for `writeString`,
JS would coerce non-strings via `String(value)`; decode of datatype 3 always
yields a string, so that coercion is not modelled). -/
def encodeDP (datatype : Nat) (v : JSValue) : Encoded :=
  match datatype, v with
  | 0, JSValue.buf l => Encoded.ok l
  | 0, _ => Encoded.thrown "writeRaw: data must be a Buffer"
  | 1, JSValue.jsbool b => Encoded.ok (writeBoolBytes b)
  | 1, _ => Encoded.thrown "writeBool: expected boolean"
  | 2, JSValue.num n => writeData32Bytes n
  | 2, _ => Encoded.thrown "writeData32: invalid uint32"
  | 3, JSValue.str codes => Encoded.ok (writeStringBytes codes)
  | 3, _ => Encoded.thrown "writeString: coercion not modelled"
  | 4, JSValue.num n => writeEnumBytes n
  | 4, _ => Encoded.thrown "writeEnum: invalid enum"
  | 5, JSValue.num n => writeData32Bytes n
  | 5, _ => Encoded.thrown "writeData32: invalid uint32"
  | _, _ => Encoded.thrown "unknown type"

/-- The round-trip chain `decode(datatype, encode(datatype, decode(datatype, data)))`. -/
def decodeEncodeDecode (datatype : Nat) (data : List Nat) : Decoded :=
  match getDataValue datatype data with
  | Decoded.ok v =>
    match encodeDP datatype v with
    | Encoded.ok bytes => getDataValue datatype bytes
    | Encoded.thrown msg => Decoded.thrown msg
  | Decoded.thrown msg => Decoded.thrown msg

lemma toUInt32Rep_ofUInt32Rep (u : Nat) (h : u < 4294967296) :
    toUInt32Rep (ofUInt32Rep u) = u := by
  simp only [toUInt32Rep, ofUInt32Rep]
  split <;> omega

lemma ofUInt32Rep_of_lt (u : Nat) (h : u < 2147483648) : ofUInt32Rep u = (u : Int) := by
  simp [ofUInt32Rep, h]

lemma toUInt32Rep_coe (b : Nat) (h : b < 4294967296) : toUInt32Rep (b : Int) = b := by
  simp only [toUInt32Rep]
  omega

lemma lor_mul256 (m b : Nat) (hb : b < 256) : Nat.lor (256 * m) b = 256 * m + b := by
  have h := (Nat.mul_add_lt_is_or (show b < 2 ^ 8 from hb) m).symm
  norm_num at h
  exact h

/-- One JS accumulation step on a 32-bit pattern `p`. -/
lemma jsStep_eq (p b : Nat) (hp : p < 4294967296) (hb : b < 256) :
    jsOr (jsShl8 (ofUInt32Rep p)) (b : Int) =
      ofUInt32Rep ((p * 256 + b) % 4294967296) := by
  have h1 : jsShl8 (ofUInt32Rep p) = ofUInt32Rep (p * 256 % 4294967296) := by
    simp [jsShl8, toUInt32Rep_ofUInt32Rep p hp]
  have hq : p * 256 % 4294967296 = 256 * (p % 16777216) := by
    have := Nat.mul_mod_mul_left 256 p 16777216
    omega
  have hqlt : p * 256 % 4294967296 < 4294967296 := Nat.mod_lt _ (by norm_num)
  rw [h1]
  simp only [jsOr, toUInt32Rep_ofUInt32Rep _ hqlt, toUInt32Rep_coe b (by omega)]
  rw [hq, lor_mul256 _ _ hb]
  congr 1
  have h2 : p % 16777216 < 16777216 := Nat.mod_lt _ (by norm_num)
  omega

lemma natFold_mod (rest : List Nat) :
    ∀ a b : Nat, a % 4294967296 = b % 4294967296 →
      (rest.foldl (fun acc byte => acc * 256 + byte) a) % 4294967296 =
        (rest.foldl (fun acc byte => acc * 256 + byte) b) % 4294967296 := by
  induction rest with
  | nil => intro a b h; simpa using h
  | cons c l ih =>
    intro a b h
    simp only [List.foldl_cons]
    exact ih _ _ (by omega)

lemma jsFold_eq (data : List Nat) :
    ∀ p : Nat, p < 4294967296 → (∀ b ∈ data, b < 256) →
      data.foldl (fun acc (byte : Nat) => jsOr (jsShl8 acc) (byte : Int)) (ofUInt32Rep p) =
        ofUInt32Rep
          ((data.foldl (fun acc byte => acc * 256 + byte) p) % 4294967296) := by
  induction data with
  | nil =>
    intro p hp _
    simp [Nat.mod_eq_of_lt hp]
  | cons c l ih =>
    intro p hp hb
    simp only [List.foldl_cons]
    rw [jsStep_eq p c hp (hb c (by simp))]
    rw [ih _ (Nat.mod_lt _ (by norm_num)) (fun b h => hb b (by simp [h]))]
    congr 1
    exact natFold_mod l _ _ (by omega)

/-- The JS 32-bit accumulation equals the unbounded big-endian accumulation
reduced mod `2^32`, read as a signed 32-bit value. -/
lemma convert_spec (data : List Nat) (hb : ∀ b ∈ data, b < 256) :
    convertMultiByteNumberPayloadToSingleDecimalNumber data =
      ofUInt32Rep (bigEndianAccum data % 4294967296) := by
  have h0 : (0 : Int) = ofUInt32Rep 0 := by norm_num [ofUInt32Rep]
  rw [convertMultiByteNumberPayloadToSingleDecimalNumber, bigEndianAccum, h0]
  exact jsFold_eq data 0 (by norm_num) hb

/-- When the accumulated value fits in 31 bits, the JS accumulation is exactly
the unbounded big-endian accumulation. -/
lemma convert_of_lt (data : List Nat) (hb : ∀ b ∈ data, b < 256)
    (h : bigEndianAccum data < 2147483648) :
    convertMultiByteNumberPayloadToSingleDecimalNumber data =
      (bigEndianAccum data : Int) := by
  rw [convert_spec data hb, Nat.mod_eq_of_lt (by omega),
    ofUInt32Rep_of_lt _ h]

lemma be32_accum (u : Nat) (h : u < 4294967296) : bigEndianAccum (be32 u) = u := by
  simp only [bigEndianAccum, be32, List.foldl_cons, List.foldl_nil]
  omega

lemma be32_bytes_lt (u : Nat) : ∀ b ∈ be32 u, b < 256 := by
  simp only [be32, List.mem_cons, List.not_mem_nil, or_false]
  rintro b (rfl | rfl | rfl | rfl) <;> omega

/-- C3: the DP decode is a pure function of `(datatype, data)`: for bool the
result is true iff `data[0] == 1`; for value and bitmap it is the big-endian
accumulation over all bytes (exactly, whenever the accumulated value fits the
nonnegative range of the 32-bit arithmetic the source uses); for enum it is
the first byte; and the claim's four concrete decodes hold. -/
theorem C3_dp_decode :
    (∀ data : List Nat, ∀ b0, data.head? = some b0 →
      (getDataValue 1 data = Decoded.ok (JSValue.jsbool true) ↔ b0 = 1))
    ∧ (∀ data : List Nat, (∀ b ∈ data, b < 256) →
        bigEndianAccum data < 2147483648 →
        getDataValue 2 data = Decoded.ok (JSValue.num (bigEndianAccum data))
        ∧ getDataValue 5 data = Decoded.ok (JSValue.num (bigEndianAccum data)))
    ∧ (∀ data : List Nat, ∀ b0, data.head? = some b0 →
        getDataValue 4 data = Decoded.ok (JSValue.num b0))
    ∧ getDataValue 2 [1, 44] = Decoded.ok (JSValue.num 300)
    ∧ getDataValue 1 [1] = Decoded.ok (JSValue.jsbool true)
    ∧ getDataValue 1 [0] = Decoded.ok (JSValue.jsbool false)
    ∧ getDataValue 4 [5] = Decoded.ok (JSValue.num 5) := by
  refine ⟨?_, ?_, ?_, by decide, by decide, by decide, by decide⟩
  · intro data b0 h
    simp [getDataValue, h]
  · intro data hb h
    constructor <;> simp [getDataValue, convert_of_lt data hb h]
  · intro data b0 h
    cases data with
    | nil => simp at h
    | cons a l =>
      simp only [List.head?_cons, Option.some.injEq] at h
      subst h
      simp [getDataValue]

/-- C3 witness: the hypothesised clauses applied at the claim's own inputs. -/
theorem C3_dp_decode_witness :
    getDataValue 2 [1, 44] = Decoded.ok (JSValue.num (bigEndianAccum [1, 44]))
    ∧ (getDataValue 1 [1] = Decoded.ok (JSValue.jsbool true) ↔ (1 : Nat) = 1)
    ∧ getDataValue 4 [5] = Decoded.ok (JSValue.num 5) :=
  ⟨(C3_dp_decode.2.1 [1, 44] (by decide) (by decide)).1,
   C3_dp_decode.1 [1] 1 rfl,
   C3_dp_decode.2.2.1 [5] 5 rfl⟩

/-- C4 counterexample: `[0x80, 0x00, 0x00, 0x00]` is a valid 4-byte value
payload (it is exactly what `writeData32` emits for `2^31`), but the 32-bit
decode yields the negative number `-2147483648`, which `writeData32` rejects,
so `decode(encode(decode(data)))` throws instead of reproducing
`decode(data)`. -/
theorem C4_roundtrip_counterexample :
    getDataValue 2 [128, 0, 0, 0] = Decoded.ok (JSValue.num (-2147483648))
    ∧ encodeDP 2 (JSValue.num (-2147483648)) =
        Encoded.thrown "writeData32: invalid uint32"
    ∧ decodeEncodeDecode 2 [128, 0, 0, 0] ≠ getDataValue 2 [128, 0, 0, 0] := by
  refine ⟨by decide, by decide, by decide⟩

/-- C4 amended: for byte data, `decode(datatype, encode(datatype,
decode(datatype, data))) == decode(datatype, data)` holds for raw, bool and
string unconditionally, for enum on non-empty data, and for value/bitmap
exactly on data whose 32-bit decode is nonnegative (accumulated value mod
`2^32` below `2^31`); outside that range `writeData32` rejects the negative
decoded value and the chain throws. -/
theorem C4_roundtrip (data : List Nat) (hb : ∀ b ∈ data, b < 256) :
    decodeEncodeDecode 0 data = getDataValue 0 data
    ∧ decodeEncodeDecode 1 data = getDataValue 1 data
    ∧ decodeEncodeDecode 3 data = getDataValue 3 data
    ∧ (data ≠ [] → decodeEncodeDecode 4 data = getDataValue 4 data)
    ∧ (bigEndianAccum data % 4294967296 < 2147483648 →
        decodeEncodeDecode 2 data = getDataValue 2 data
        ∧ decodeEncodeDecode 5 data = getDataValue 5 data) := by
  refine ⟨rfl, ?_, ?_, ?_, ?_⟩
  · cases h : data.head? == some 1 <;>
      simp [decodeEncodeDecode, getDataValue, encodeDP, writeBoolBytes, h]
  · have hmap : data.map (fun c => c % 256) = data := by
      rw [List.map_congr_left (fun b h => Nat.mod_eq_of_lt (hb b h))]
      exact List.map_id data
    simp [decodeEncodeDecode, getDataValue, encodeDP, writeStringBytes, hmap]
  · intro hne
    cases data with
    | nil => exact absurd rfl hne
    | cons a l =>
      have ha : a < 256 := hb a (by simp)
      have hcond : (0 : Int) ≤ (a : Int) ∧ (a : Int) ≤ 255 := by
        constructor <;> [positivity; exact_mod_cast Nat.le_of_lt_succ (by omega)]
      simp [decodeEncodeDecode, getDataValue, encodeDP, writeEnumBytes, hcond]
  · intro h
    set u : Nat := bigEndianAccum data % 4294967296 with hu
    have hult : u < 4294967296 := by rw [hu]; exact Nat.mod_lt _ (by norm_num)
    have hdec :
        convertMultiByteNumberPayloadToSingleDecimalNumber data = (u : Int) := by
      rw [convert_spec data hb, ← hu, ofUInt32Rep_of_lt _ h]
    have hcond : (0 : Int) ≤ (u : Int) ∧ (u : Int) ≤ 4294967295 := by
      have hle : u ≤ 4294967295 := by omega
      exact ⟨by positivity, by exact_mod_cast hle⟩
    have hre :
        convertMultiByteNumberPayloadToSingleDecimalNumber (be32 u) = (u : Int) := by
      rw [convert_spec _ (be32_bytes_lt _), be32_accum _ hult,
        Nat.mod_eq_of_lt hult]
      exact ofUInt32Rep_of_lt _ h
    constructor <;>
      simp only [decodeEncodeDecode, getDataValue, hdec, encodeDP,
        writeData32Bytes, if_pos hcond, Int.toNat_natCast, hre]

/-- C4 amended witness: concrete round trips for value, enum and bool data. -/
theorem C4_roundtrip_witness :
    decodeEncodeDecode 2 [1, 44] = getDataValue 2 [1, 44]
    ∧ decodeEncodeDecode 4 [5] = getDataValue 4 [5]
    ∧ decodeEncodeDecode 1 [1] = getDataValue 1 [1] :=
  ⟨((C4_roundtrip [1, 44] (by decide)).2.2.2.2 (by decide)).1,
   (C4_roundtrip [5] (by decide)).2.2.2.1 (by decide),
   (C4_roundtrip [1] (by decide)).2.1⟩

/-! ### Availability tracker: `AvailabilityManagerBase`

The watchdog tick body (from `_startWatchdog`): skip when `_isEnabled()` is
false; when no `last_seen_ts` is stored, persist `Date.now()` and return;
otherwise, when `getAvailable()` and `Date.now() - last_seen > timeout`,
cascade unavailability.  `_markAlive` persists `last_seen_ts = Date.now()` and,
when the device is currently unavailable, cascades availability (the device
ends available either way).
-/

/-- Node-local availability state: the monitoring flag, the persisted
`last_seen_ts` store value, and the host's available flag. -/
structure AvState where
  enabled : Bool
  lastSeen : Option Nat
  available : Bool
deriving DecidableEq

/-- What a single watchdog tick did. -/
inductive TickAction where
  | skippedDisabled
  | seeded
  | markUnavailable
  | noop
deriving DecidableEq

/-- One watchdog tick at wall-clock time `now` with configured `timeout`.
`idle` is JS `Date.now() - lastSeen`, an (integer) subtraction. -/
def watchdogTick (timeout now : Nat) (s : AvState) : AvState × TickAction :=
  if s.enabled = false then (s, TickAction.skippedDisabled)
  else
    match s.lastSeen with
    | none => ({ s with lastSeen := some now }, TickAction.seeded)
    | some ls =>
      if s.available = true ∧ (timeout : Int) < (now : Int) - (ls : Int) then
        ({ s with available := false }, TickAction.markUnavailable)
      else (s, TickAction.noop)

/-- `_markAlive`: persist the activity timestamp and restore availability. -/
def markAlive (now : Nat) (s : AvState) : AvState :=
  { s with lastSeen := some now, available := true }

/-- C5: a tick transitions the node to unavailable iff monitoring is enabled,
a last-seen timestamp exists, `now - last_seen` strictly exceeds the timeout,
and the node is currently available; an already-unavailable node is never
transitioned or logged again; with `timeout = 600000` and last activity at 0,
a tick at 600001 transitions to unavailable, and a subsequent activity mark
immediately restores availability. -/
theorem C5_watchdog_transition :
    (∀ timeout now : Nat, ∀ s : AvState,
      ((watchdogTick timeout now s).2 = TickAction.markUnavailable ↔
        s.enabled = true ∧ s.available = true ∧
          ∃ ls, s.lastSeen = some ls ∧ (timeout : Int) < (now : Int) - (ls : Int)))
    ∧ (∀ timeout now : Nat, ∀ s : AvState,
        (watchdogTick timeout now s).2 = TickAction.markUnavailable →
          (watchdogTick timeout now s).1.available = false)
    ∧ (∀ timeout now : Nat, ∀ s : AvState, s.available = false →
        (watchdogTick timeout now s).1.available = false ∧
          (watchdogTick timeout now s).2 ≠ TickAction.markUnavailable)
    ∧ watchdogTick 600000 600001 ⟨true, some 0, true⟩ =
        (⟨true, some 0, false⟩, TickAction.markUnavailable)
    ∧ markAlive 600002 ⟨true, some 0, false⟩ = ⟨true, some 600002, true⟩ := by
  refine ⟨?_, ?_, ?_, by decide, by decide⟩
  · intro timeout now s
    cases s with
    | mk enabled lastSeen available =>
      cases enabled <;> cases available <;> cases lastSeen <;>
        simp [watchdogTick] <;> split <;> simp_all
  · intro timeout now s h
    cases s with
    | mk enabled lastSeen available =>
      cases enabled <;> cases available <;> cases lastSeen <;>
        simp_all [watchdogTick] <;> split at h <;> simp_all [watchdogTick]
  · intro timeout now s h
    cases s with
    | mk enabled lastSeen available =>
      cases enabled <;> cases lastSeen <;> simp_all [watchdogTick]

/-- C5 witness: the iff applied at the claim's concrete scenario. -/
theorem C5_watchdog_transition_witness :
    (watchdogTick 600000 600001 ⟨true, some 0, true⟩).2 =
      TickAction.markUnavailable :=
  C5_watchdog_transition.1 600000 600001 ⟨true, some 0, true⟩ |>.mpr
    ⟨rfl, rfl, 0, rfl, by norm_num⟩

/-- C10: a tick with monitoring enabled and no persisted last-seen timestamp
stores the current time as last-seen and makes no availability transition;
after that first tick seeds `t0`, a later tick can mark the node unavailable
only once its time exceeds `t0 + timeout`. -/
theorem C10_watchdog_seeding (timeout t0 : Nat) (s : AvState)
    (hen : s.enabled = true) (hls : s.lastSeen = none) :
    (watchdogTick timeout t0 s).1.lastSeen = some t0
    ∧ (watchdogTick timeout t0 s).2 = TickAction.seeded
    ∧ (watchdogTick timeout t0 s).1.available = s.available
    ∧ ∀ t : Nat,
        (watchdogTick timeout t (watchdogTick timeout t0 s).1).2 =
            TickAction.markUnavailable →
          (timeout : Int) < (t : Int) - (t0 : Int) := by
  cases s with
  | mk enabled lastSeen available =>
    cases enabled with
    | false => cases hen
    | true =>
      cases lastSeen with
      | some ls => cases hls
      | none =>
        refine ⟨rfl, rfl, rfl, ?_⟩
        intro t h
        have hs1 : (watchdogTick timeout t0 (AvState.mk true none available)).1 =
            AvState.mk true (some t0) available := rfl
        rw [hs1] at h
        simp only [watchdogTick] at h
        split at h
        · rename_i hcond
          exact Bool.noConfusion hcond
        · split at h
          · rename_i hcond
            exact hcond.2
          · simp at h

/-- C10 witness: enabled node with no history, first tick at 100: seeds and
keeps availability; a second tick at 200 with timeout 600000 cannot fire. -/
theorem C10_watchdog_seeding_witness :
    (watchdogTick 600000 100 ⟨true, none, true⟩).1.lastSeen = some 100
    ∧ (watchdogTick 600000 100 ⟨true, none, true⟩).2 = TickAction.seeded
    ∧ (watchdogTick 600000 100 ⟨true, none, true⟩).1.available = true :=
  ⟨(C10_watchdog_seeding 600000 100 ⟨true, none, true⟩ rfl rfl).1,
   (C10_watchdog_seeding 600000 100 ⟨true, none, true⟩ rfl rfl).2.1,
   (C10_watchdog_seeding 600000 100 ⟨true, none, true⟩ rfl rfl).2.2.1⟩

/-! ### Sibling resolution and cascade: `_getSiblings`, `_markAll*`

`_getSiblings` filters `driver.getDevices()` by `getData().ieeeAddress`, falls
back to `getData().token`, and finally to `[this.device]`.  The cascades set
every resolved sibling unavailable/available (each `set*` call is guarded by
the sibling's current state, which does not change the final state).
-/

/-- The `getData()` fields sibling resolution reads, plus a host identity. -/
structure DevData where
  id : Nat
  ieee : Option String
  token : Option String
deriving DecidableEq

/-- Strategy 2 and 3 of `_getSiblings`: token match, else self only. -/
def tokenFallback (d : DevData) (all : List DevData) : List DevData :=
  match d.token with
  | some t =>
    let byToken := all.filter (fun x => x.token == some t)
    if byToken.isEmpty then [d] else byToken
  | none => [d]

/-- `_getSiblings()`: resolution in priority order (ieee, token, self). -/
def getSiblings (d : DevData) (all : List DevData) : List DevData :=
  match d.ieee with
  | some i =>
    let byIeee := all.filter (fun x => x.ieee == some i)
    if byIeee.isEmpty then tokenFallback d all else byIeee
  | none => tokenFallback d all

/-- `_markAllUnavailable(reason)`: availability map after setting every
resolved sibling unavailable. -/
def markAllUnavailable (d : DevData) (all : List DevData) (avail : Nat → Bool) :
    Nat → Bool :=
  fun x => if (getSiblings d all).any (fun s => s.id == x) then false else avail x

/-- `_markAllAvailable()`: availability map after restoring every resolved
sibling. -/
def markAllAvailable (d : DevData) (all : List DevData) (avail : Nat → Bool) :
    Nat → Bool :=
  fun x => if (getSiblings d all).any (fun s => s.id == x) then true else avail x

lemma cascade_set_spec (sibs : List DevData) (avail : Nat → Bool) (x : Nat)
    (v : Bool) :
    ((if sibs.any (fun s => s.id == x) then v else avail x) = v ↔
      avail x = v ∨ ∃ s ∈ sibs, s.id = x) := by
  by_cases hany : sibs.any (fun s => s.id == x) = true
  · rw [if_pos hany]
    constructor
    · intro _
      right
      obtain ⟨s, hs, hp⟩ := List.any_eq_true.mp hany
      exact ⟨s, hs, by simpa using hp⟩
    · intro _
      rfl
  · rw [if_neg (by simpa using hany)]
    constructor
    · intro hv
      exact Or.inl hv
    · rintro (hv | ⟨s, hs, hid⟩)
      · exact hv
      · exact absurd (List.any_eq_true.mpr ⟨s, hs, by simpa using hid⟩) hany

/-- The three virtual devices of the claim's concrete scenario: one physical
address shared by a main device and two sub-devices. -/
def devA : DevData := ⟨1, some "aa:bb", none⟩

/-- Second gang on the same physical address. -/
def devB : DevData := ⟨2, some "aa:bb", none⟩

/-- Third gang on the same physical address. -/
def devC : DevData := ⟨3, some "aa:bb", none⟩

/-- C6: sibling resolution follows the priority order (same ieee if non-empty,
else same token if non-empty, else self), cascades touch exactly the resolved
set, and for three virtual devices sharing one address a timeout marks all
three unavailable and an activity event restores all three. -/
theorem C6_sibling_cascade :
    (∀ d all i, d ∈ all → d.ieee = some i →
      getSiblings d all = all.filter (fun x => x.ieee == some i)
      ∧ d ∈ getSiblings d all)
    ∧ (∀ d all t, d ∈ all → d.ieee = none → d.token = some t →
      getSiblings d all = all.filter (fun x => x.token == some t)
      ∧ d ∈ getSiblings d all)
    ∧ (∀ d all, d.ieee = none → d.token = none → getSiblings d all = [d])
    ∧ (∀ d all avail x,
      (markAllUnavailable d all avail x = false ↔
        avail x = false ∨ ∃ s ∈ getSiblings d all, s.id = x)
      ∧ (markAllAvailable d all avail x = true ↔
        avail x = true ∨ ∃ s ∈ getSiblings d all, s.id = x))
    ∧ (∀ d ∈ [devA, devB, devC],
        getSiblings d [devA, devB, devC] = [devA, devB, devC])
    ∧ (∀ x ∈ [1, 2, 3],
        markAllUnavailable devA [devA, devB, devC] (fun _ => true) x = false)
    ∧ (∀ x ∈ [1, 2, 3],
        markAllAvailable devB [devA, devB, devC] (fun _ => false) x = true) := by
  refine ⟨?_, ?_, ?_, ?_, by decide, by decide, by decide⟩
  · intro d all i hd hi
    have hmem : d ∈ all.filter (fun x => x.ieee == some i) := by
      simp [List.mem_filter, hd, hi]
    have hne : (all.filter (fun x => x.ieee == some i)).isEmpty = false := by
      cases hfe : (all.filter (fun x => x.ieee == some i)).isEmpty
      · rfl
      · rw [List.isEmpty_iff] at hfe
        rw [hfe] at hmem
        cases hmem
    have hsib : getSiblings d all = all.filter (fun x => x.ieee == some i) := by
      simp [getSiblings, hi, hne]
    exact ⟨hsib, hsib ▸ hmem⟩
  · intro d all t hd hi ht
    have hmem : d ∈ all.filter (fun x => x.token == some t) := by
      simp [List.mem_filter, hd, ht]
    have hne : (all.filter (fun x => x.token == some t)).isEmpty = false := by
      cases hfe : (all.filter (fun x => x.token == some t)).isEmpty
      · rfl
      · rw [List.isEmpty_iff] at hfe
        rw [hfe] at hmem
        cases hmem
    have hsib : getSiblings d all = all.filter (fun x => x.token == some t) := by
      simp [getSiblings, tokenFallback, hi, ht, hne]
    exact ⟨hsib, hsib ▸ hmem⟩
  · intro d all hi ht
    simp [getSiblings, tokenFallback, hi, ht]
  · intro d all avail x
    exact ⟨cascade_set_spec (getSiblings d all) avail x false,
      cascade_set_spec (getSiblings d all) avail x true⟩

/-- C6 witness: the resolution and exact-cascade clauses applied to the
three-device scenario. -/
theorem C6_sibling_cascade_witness :
    (getSiblings devA [devA, devB, devC] =
      List.filter (fun x => x.ieee == some "aa:bb") [devA, devB, devC]
    ∧ devA ∈ getSiblings devA [devA, devB, devC])
    ∧ (markAllUnavailable devA [devA, devB, devC] (fun _ => true) 2 = false ↔
        (fun _ : Nat => true) 2 = false
          ∨ ∃ s ∈ getSiblings devA [devA, devB, devC], s.id = 2) :=
  ⟨C6_sibling_cascade.1 devA [devA, devB, devC] "aa:bb" (by decide) rfl,
   (C6_sibling_cascade.2.2.2.1 devA [devA, devB, devC] (fun _ => true) 2).1⟩

/-! ### Time sync: `sendTimeResponse`

The payload-construction part of `sendTimeResponse(request)`: `use10Bytes`
starts `true` and becomes `false` only when the request carries a buffer of at
least 2 bytes whose first two bytes are `0x00 0x06` or `0x00 0x00`.
`reqData` models `request?.payload || request?.data` resolved to a byte list
(or `none` when absent/not a buffer).  `writeUInt32BE` is modelled modulo
`2^32`; the theorems carry range hypotheses under which the reduction is
the identity.
-/

/-- Payload built by `sendTimeResponse` from the UTC epoch seconds, the
timezone offset in seconds computed at send time, and the request bytes. -/
def sendTimeResponsePayload (utc : Nat) (offsetSeconds : Int)
    (reqData : Option (List Nat)) : List Nat :=
  let localSeconds : Int := (utc : Int) + offsetSeconds
  let use10Bytes : Bool :=
    match reqData with
    | some l =>
      if 2 ≤ l.length ∧
          ((l[0]? = some 0 ∧ l[1]? = some 6) ∨ (l[0]? = some 0 ∧ l[1]? = some 0))
      then false else true
    | none => true
  let utcBytes := be32 (utc % 4294967296)
  let localBytes := be32 (localSeconds.toNat % 4294967296)
  if use10Bytes then 0 :: 8 :: (utcBytes ++ localBytes) else utcBytes ++ localBytes

/-- C7 counterexample: with no request at hand, the code keeps
`use10Bytes = true` and sends the 10-byte payload, not the 8-byte one the
claim requires for an absent request. -/
theorem C7_timesync_counterexample :
    (sendTimeResponsePayload 1700000000 0 none).length = 10
    ∧ (sendTimeResponsePayload 1700000000 0 none).take 2 = [0, 8]
    ∧ (sendTimeResponsePayload 1700000000 0 none).length ≠ 8 := by
  refine ⟨by decide, by decide, by decide⟩

/-- C7 amended: the response is the 8-byte payload
`[UTC_seconds(4B BE)][local_seconds(4B BE)]` exactly when the request is
present, has at least two bytes, and starts `0x00 0x06` or `0x00 0x00`; in
every other case (other first bytes, short request, or absent request) it is
the 10-byte payload `[0x00 0x08][UTC][local]`; `local = UTC + offset`. -/
theorem C7_timesync (utc : Nat) (offsetSeconds : Int)
    (hutc : utc < 4294967296)
    (hlocal0 : 0 ≤ (utc : Int) + offsetSeconds)
    (hlocal1 : (utc : Int) + offsetSeconds < 4294967296) :
    (∀ l : List Nat,
      (2 ≤ l.length ∧
        ((l[0]? = some 0 ∧ l[1]? = some 6) ∨ (l[0]? = some 0 ∧ l[1]? = some 0))) →
      sendTimeResponsePayload utc offsetSeconds (some l) =
        be32 utc ++ be32 ((utc : Int) + offsetSeconds).toNat
      ∧ (sendTimeResponsePayload utc offsetSeconds (some l)).length = 8)
    ∧ (sendTimeResponsePayload utc offsetSeconds none =
        0 :: 8 :: (be32 utc ++ be32 ((utc : Int) + offsetSeconds).toNat)
      ∧ (sendTimeResponsePayload utc offsetSeconds none).length = 10)
    ∧ (∀ l : List Nat,
      ¬(2 ≤ l.length ∧
        ((l[0]? = some 0 ∧ l[1]? = some 6) ∨ (l[0]? = some 0 ∧ l[1]? = some 0))) →
      sendTimeResponsePayload utc offsetSeconds (some l) =
        0 :: 8 :: (be32 utc ++ be32 ((utc : Int) + offsetSeconds).toNat)
      ∧ (sendTimeResponsePayload utc offsetSeconds (some l)).length = 10) := by
  have hmod1 : utc % 4294967296 = utc := Nat.mod_eq_of_lt hutc
  have hmod2 : ((utc : Int) + offsetSeconds).toNat % 4294967296 =
      ((utc : Int) + offsetSeconds).toNat := Nat.mod_eq_of_lt (by omega)
  refine ⟨?_, ?_, ?_⟩
  · intro l hc
    have hpay : sendTimeResponsePayload utc offsetSeconds (some l) =
        be32 utc ++ be32 ((utc : Int) + offsetSeconds).toNat := by
      simp only [sendTimeResponsePayload, if_pos hc, hmod1, hmod2]
      simp
    exact ⟨hpay, by rw [hpay]; simp [be32]⟩
  · have hpay : sendTimeResponsePayload utc offsetSeconds none =
        0 :: 8 :: (be32 utc ++ be32 ((utc : Int) + offsetSeconds).toNat) := by
      simp only [sendTimeResponsePayload, hmod1, hmod2]
      simp
    exact ⟨hpay, by rw [hpay]; simp [be32]⟩
  · intro l hc
    have hpay : sendTimeResponsePayload utc offsetSeconds (some l) =
        0 :: 8 :: (be32 utc ++ be32 ((utc : Int) + offsetSeconds).toNat) := by
      simp only [sendTimeResponsePayload, if_neg hc, hmod1, hmod2]
      simp
    exact ⟨hpay, by rw [hpay]; simp [be32]⟩

/-- C7 amended witness: a `0x00 0x06` request gets the 8-byte payload and a
`0x00 0x08` request gets the 10-byte payload, at concrete times. -/
theorem C7_timesync_witness :
    (sendTimeResponsePayload 1000 3600 (some [0, 6])).length = 8
    ∧ (sendTimeResponsePayload 1000 3600 (some [0, 8])).length = 10 :=
  ⟨((C7_timesync 1000 3600 (by norm_num) (by norm_num) (by norm_num)).1 [0, 6]
      (by decide)).2,
   ((C7_timesync 1000 3600 (by norm_num) (by norm_num) (by norm_num)).2.2 [0, 8]
      (by decide)).2⟩

/-! ### Bulk commands: `sendBulkCommands`

`sendBulkCommands(commands, delayBetween)`: empty input returns `[]` before
anything else; an unavailable device aborts the whole batch up front with
per-item `{ success: false, error: 'device unavailable' }` results; otherwise
items run sequentially with `delay = Math.max(150, delayBetween)` awaited
between consecutive loop iterations (the `continue` taken by an aborted item
skips that wait), a per-item write with the bulk retry profile (2 retries,
200 ms base), a consecutive-failure counter that resets on success, and
fail-fast: once `fails >= 2`, every remaining item is pushed as
`aborted: consecutive failures` without attempting transmission.
-/

/-- One bulk item: its datapoint and the transmit oracle of its write (all
five `write*` methods funnel into `_sendTuyaDatapoint(dp, _, _, 2, 200)`;
an unknown `cmd.type` is absorbed by an always-throwing oracle). -/
structure BulkCmd where
  dp : Nat
  oracle : Nat → Option Nat

/-- Per-item entry of the returned result list. -/
inductive BulkEntry where
  | ok (dp : Nat)
  | failed (dp : Nat)
  | abortedConsecutive (dp : Nat)
  | unavailable (dp : Nat)
deriving DecidableEq

/-- The `dp` recorded in a result entry. -/
def entryDp : BulkEntry → Nat
  | BulkEntry.ok dp => dp
  | BulkEntry.failed dp => dp
  | BulkEntry.abortedConsecutive dp => dp
  | BulkEntry.unavailable dp => dp

/-- The bulk loop with the current consecutive-failure counter; returns the
result entries and the list of inter-command waits performed. -/
def bulkGo (delay : Nat) : List BulkCmd → Nat → List BulkEntry × List Nat
  | [], _ => ([], [])
  | c :: rest, fails =>
    if 2 ≤ fails then
      let t := bulkGo delay rest fails
      (BulkEntry.abortedConsecutive c.dp :: t.1, t.2)
    else
      match (sendTuyaDatapoint c.oracle 2 200).result with
      | SendResult.success =>
        let t := bulkGo delay rest 0
        (BulkEntry.ok c.dp :: t.1, if rest.isEmpty then t.2 else delay :: t.2)
      | SendResult.failure _ =>
        let t := bulkGo delay rest (fails + 1)
        (BulkEntry.failed c.dp :: t.1, if rest.isEmpty then t.2 else delay :: t.2)

/-- `sendBulkCommands(commands, delayBetween = 200)`. -/
def sendBulkCommands (available : Bool) (commands : List BulkCmd)
    (delayBetween : Nat) : List BulkEntry × List Nat :=
  if commands.isEmpty then ([], [])
  else if available = false then
    (commands.map (fun c => BulkEntry.unavailable c.dp), [])
  else bulkGo (max 150 delayBetween) commands 0

lemma bulkGo_map_dp (delay : Nat) :
    ∀ (cmds : List BulkCmd) (fails : Nat),
      ((bulkGo delay cmds fails).1).map entryDp = cmds.map BulkCmd.dp := by
  intro cmds
  induction cmds with
  | nil => intro fails; simp [bulkGo]
  | cons c rest ih =>
    intro fails
    by_cases hf : 2 ≤ fails
    · simp [bulkGo, hf, entryDp, ih]
    · cases hres : (sendTuyaDatapoint c.oracle 2 200).result with
      | success => simp [bulkGo, hf, hres, entryDp, ih]
      | failure e => simp [bulkGo, hf, hres, entryDp, ih]

lemma bulkGo_delays (delay : Nat) :
    ∀ (cmds : List BulkCmd) (fails : Nat),
      ∀ x ∈ (bulkGo delay cmds fails).2, x = delay := by
  intro cmds
  induction cmds with
  | nil => intro fails x hx; simp [bulkGo] at hx
  | cons c rest ih =>
    intro fails x hx
    by_cases hf : 2 ≤ fails
    · simp only [bulkGo, if_pos hf] at hx
      exact ih fails x hx
    · cases hres : (sendTuyaDatapoint c.oracle 2 200).result with
      | success =>
        simp only [bulkGo, if_neg hf, hres] at hx
        by_cases hrest : rest.isEmpty
        · rw [if_pos hrest] at hx
          exact ih 0 x hx
        · rw [if_neg hrest] at hx
          rcases List.mem_cons.mp hx with h | h
          · exact h
          · exact ih 0 x h
      | failure e =>
        simp only [bulkGo, if_neg hf, hres] at hx
        by_cases hrest : rest.isEmpty
        · rw [if_pos hrest] at hx
          exact ih (fails + 1) x hx
        · rw [if_neg hrest] at hx
          rcases List.mem_cons.mp hx with h | h
          · exact h
          · exact ih (fails + 1) x h

lemma bulkGo_all_aborted (delay : Nat) :
    ∀ (cmds : List BulkCmd) (fails : Nat), 2 ≤ fails →
      bulkGo delay cmds fails =
        (cmds.map (fun c => BulkEntry.abortedConsecutive c.dp), []) := by
  intro cmds
  induction cmds with
  | nil => intro fails _; simp [bulkGo]
  | cons c rest ih =>
    intro fails hf
    simp [bulkGo, hf, ih fails hf]

lemma bulkGo_failfast (delay : Nat) :
    ∀ (cmds : List BulkCmd) (fails i p q : Nat),
      ((bulkGo delay cmds fails).1)[i]? = some (BulkEntry.failed p) →
      ((bulkGo delay cmds fails).1)[i + 1]? = some (BulkEntry.failed q) →
      ∀ k, i + 1 < k → ∀ e, ((bulkGo delay cmds fails).1)[k]? = some e →
        ∃ dp, e = BulkEntry.abortedConsecutive dp := by
  intro cmds
  induction cmds with
  | nil =>
    intro fails i p q h1 _ _ _ _ hke
    simp [bulkGo] at h1
  | cons c rest ih =>
    intro fails i p q h1 h2 k hk e hke
    by_cases hf : 2 ≤ fails
    · rw [bulkGo_all_aborted delay _ fails hf] at hke
      simp only [List.getElem?_map] at hke
      obtain ⟨x, _, hxe⟩ := Option.map_eq_some'.mp hke
      exact ⟨x.dp, hxe.symm⟩
    · cases hres : (sendTuyaDatapoint c.oracle 2 200).result with
      | success =>
        have hun : (bulkGo delay (c :: rest) fails).1 =
            BulkEntry.ok c.dp :: (bulkGo delay rest 0).1 := by
          simp [bulkGo, hf, hres]
        rw [hun] at h1 h2 hke
        cases i with
        | zero => simp at h1
        | succ i' =>
          cases k with
          | zero => omega
          | succ k' =>
            simp only [List.getElem?_cons_succ] at h1 h2 hke
            exact ih 0 i' p q h1 h2 k' (by omega) e hke
      | failure err =>
        have hun : (bulkGo delay (c :: rest) fails).1 =
            BulkEntry.failed c.dp :: (bulkGo delay rest (fails + 1)).1 := by
          simp [bulkGo, hf, hres]
        rw [hun] at h1 h2 hke
        cases i with
        | succ i' =>
          cases k with
          | zero => omega
          | succ k' =>
            simp only [List.getElem?_cons_succ] at h1 h2 hke
            exact ih (fails + 1) i' p q h1 h2 k' (by omega) e hke
        | zero =>
          simp only [List.getElem?_cons_succ] at h2
          cases k with
          | zero => omega
          | succ k' =>
            simp only [List.getElem?_cons_succ] at hke
            cases rest with
            | nil => simp [bulkGo] at h2
            | cons c2 rest2 =>
              by_cases hf1 : 2 ≤ fails + 1
              · rw [bulkGo_all_aborted delay _ _ hf1] at h2
                simp at h2
              · cases hres2 : (sendTuyaDatapoint c2.oracle 2 200).result with
                | success =>
                  have hun2 : (bulkGo delay (c2 :: rest2) (fails + 1)).1 =
                      BulkEntry.ok c2.dp :: (bulkGo delay rest2 0).1 := by
                    simp [bulkGo, hf1, hres2]
                  rw [hun2] at h2
                  simp at h2
                | failure err2 =>
                  have hun2 : (bulkGo delay (c2 :: rest2) (fails + 1)).1 =
                      BulkEntry.failed c2.dp ::
                        (bulkGo delay rest2 (fails + 1 + 1)).1 := by
                    simp [bulkGo, hf1, hres2]
                  rw [hun2] at hke
                  cases k' with
                  | zero => omega
                  | succ k'' =>
                    simp only [List.getElem?_cons_succ] at hke
                    rw [bulkGo_all_aborted delay rest2 (fails + 1 + 1)
                      (by omega)] at hke
                    simp only [List.getElem?_map] at hke
                    obtain ⟨x, _, hxe⟩ := Option.map_eq_some'.mp hke
                    exact ⟨x.dp, hxe.symm⟩

lemma bulkGo_reset (delay : Nat) :
    ∀ (cmds : List BulkCmd) (fails i p : Nat),
      ((bulkGo delay cmds fails).1)[i]? = some (BulkEntry.ok p) →
      ∀ q, ((bulkGo delay cmds fails).1)[i + 1]? ≠
        some (BulkEntry.abortedConsecutive q) := by
  intro cmds
  induction cmds with
  | nil =>
    intro fails i p h1 q h2
    simp [bulkGo] at h1
  | cons c rest ih =>
    intro fails i p h1 q h2
    by_cases hf : 2 ≤ fails
    · rw [bulkGo_all_aborted delay _ fails hf] at h1
      simp only [List.getElem?_map] at h1
      obtain ⟨x, _, hxe⟩ := Option.map_eq_some'.mp h1
      exact BulkEntry.noConfusion hxe
    · cases hres : (sendTuyaDatapoint c.oracle 2 200).result with
      | success =>
        have hun : (bulkGo delay (c :: rest) fails).1 =
            BulkEntry.ok c.dp :: (bulkGo delay rest 0).1 := by
          simp [bulkGo, hf, hres]
        rw [hun] at h1 h2
        cases i with
        | zero =>
          simp only [List.getElem?_cons_succ] at h2
          cases rest with
          | nil => simp [bulkGo] at h2
          | cons c2 rest2 =>
            cases hres2 : (sendTuyaDatapoint c2.oracle 2 200).result with
            | success =>
              have hun2 : (bulkGo delay (c2 :: rest2) 0).1 =
                  BulkEntry.ok c2.dp :: (bulkGo delay rest2 0).1 := by
                simp [bulkGo, hres2]
              rw [hun2] at h2
              simp at h2
            | failure e2 =>
              have hun2 : (bulkGo delay (c2 :: rest2) 0).1 =
                  BulkEntry.failed c2.dp :: (bulkGo delay rest2 1).1 := by
                simp [bulkGo, hres2]
              rw [hun2] at h2
              simp at h2
        | succ i' =>
          simp only [List.getElem?_cons_succ] at h1 h2
          exact ih 0 i' p h1 q h2
      | failure err =>
        have hun : (bulkGo delay (c :: rest) fails).1 =
            BulkEntry.failed c.dp :: (bulkGo delay rest (fails + 1)).1 := by
          simp [bulkGo, hf, hres]
        rw [hun] at h1 h2
        cases i with
        | zero => simp at h1
        | succ i' =>
          simp only [List.getElem?_cons_succ] at h1 h2
          exact ih (fails + 1) i' p h1 q h2

lemma sendBulkCommands_run (cmds : List BulkCmd) (delayBetween : Nat)
    (hne : cmds ≠ []) :
    sendBulkCommands true cmds delayBetween =
      bulkGo (max 150 delayBetween) cmds 0 := by
  cases cmds with
  | nil => exact absurd rfl hne
  | cons c rest => simp [sendBulkCommands]

/-- C8: for every non-empty command list with the device available, the result
list has one entry per input command carrying its `dp`, in input order; every
inter-command wait equals `max 150 delayBetween` (hence is at least 150 ms);
once two consecutive items have failed, every later item is marked aborted
without a transmit attempt; and an item after a successful item is never
aborted (the consecutive-failure counter resets). -/
theorem C8_bulk_failfast (cmds : List BulkCmd) (delayBetween : Nat)
    (hne : cmds ≠ []) :
    ((sendBulkCommands true cmds delayBetween).1).map entryDp =
      cmds.map BulkCmd.dp
    ∧ (∀ x ∈ (sendBulkCommands true cmds delayBetween).2,
        x = max 150 delayBetween ∧ 150 ≤ x)
    ∧ (∀ i p q,
        ((sendBulkCommands true cmds delayBetween).1)[i]? =
            some (BulkEntry.failed p) →
        ((sendBulkCommands true cmds delayBetween).1)[i + 1]? =
            some (BulkEntry.failed q) →
        ∀ k, i + 1 < k → ∀ e,
          ((sendBulkCommands true cmds delayBetween).1)[k]? = some e →
            ∃ dp, e = BulkEntry.abortedConsecutive dp)
    ∧ (∀ i p,
        ((sendBulkCommands true cmds delayBetween).1)[i]? =
            some (BulkEntry.ok p) →
        ∀ q, ((sendBulkCommands true cmds delayBetween).1)[i + 1]? ≠
          some (BulkEntry.abortedConsecutive q)) := by
  rw [sendBulkCommands_run cmds delayBetween hne]
  refine ⟨bulkGo_map_dp _ cmds 0, ?_, ?_, ?_⟩
  · intro x hx
    have hx' := bulkGo_delays _ cmds 0 x hx
    exact ⟨hx', by omega⟩
  · intro i p q h1 h2 k hk e hke
    exact bulkGo_failfast _ cmds 0 i p q h1 h2 k hk e hke
  · intro i p h1 q
    exact bulkGo_reset _ cmds 0 i p h1 q

/-- Bulk item whose write always succeeds. -/
def bulkCmdA : BulkCmd := ⟨7, fun _ => none⟩

/-- Bulk item whose write always throws. -/
def bulkCmdB : BulkCmd := ⟨9, fun _ => some 1⟩

/-- C8 witness: a two-item batch (one succeeding, one failing) keeps order and
dp, and the item after the successful first item is not aborted. -/
theorem C8_bulk_failfast_witness :
    ((sendBulkCommands true [bulkCmdA, bulkCmdB] 200).1).map entryDp = [7, 9]
    ∧ (∀ q, ((sendBulkCommands true [bulkCmdA, bulkCmdB] 200).1)[1]? ≠
        some (BulkEntry.abortedConsecutive q)) := by
  constructor
  · exact ((C8_bulk_failfast [bulkCmdA, bulkCmdB] 200 (by simp)).1).trans rfl
  · intro q
    exact (C8_bulk_failfast [bulkCmdA, bulkCmdB] 200 (by simp)).2.2.2 0 7
      (by decide) q

/-- C9: when the device is unavailable, the whole batch is aborted up front:
the result marks every item failed with the unavailability error, no
inter-command wait happens, and no transmit is attempted (the outcome does not
consult any item's oracle). -/
theorem C9_bulk_unavailable (cmds : List BulkCmd) (delayBetween : Nat) :
    sendBulkCommands false cmds delayBetween =
      (cmds.map (fun c => BulkEntry.unavailable c.dp), []) := by
  cases cmds with
  | nil => simp [sendBulkCommands]
  | cons c rest => simp [sendBulkCommands]
